import Mathlib

set_option maxHeartbeats 1000000

namespace FlyVr

/-!
Shallow embedding of `src/audio/io_task.py` (fly-vr repository).

The embedding covers:
* `chunker` (io_task.py lines 284-316): the stream reshaper generator;
* `IOTask.EveryNCallback` / `IOTask.send` / `IOTask.stop` /
  `IOTask.set_data_generator` (lines 107-165): the callback-driven transfer
  engine, recorder fan-out and source hot-swapping;
* `io_task_main` (lines 198-281): the session controller loop.

Hardware calls (`ReadAnalogF64`, `WriteAnalogF64`, `StartTask`, ...) are
modelled as emitted trace events; `time.clock()` values and the blocks read
from hardware are inputs supplied by the environment.
-/

/-! ## The chunker (StreamReshaper), io_task.py lines 284-316

One call of `chunkFill L carry pending` models the execution of the
`while True:` loop body of `chunker` from one `yield` to the next.
`carry` is the already-filled prefix of `next_chunk`
(`next_chunk[0:curr_chunk_sample]`), `pending` is the not-yet-consumed tail
of the source: its head is `data[curr_data_sample:]`, the rest are the
blocks `gen` will produce next.  The loop pulls a new `data` block exactly
when the current one is fully consumed; `sz = min(chunk_size -
curr_chunk_sample, num_samples - curr_data_sample)` samples are copied; the
filled chunk is yielded (as a copy) when `curr_chunk_sample == chunk_size`.
`none` models `gen.next()` raising `StopIteration`, which propagates out of
the chunker generator. -/
def chunkFill (L : Nat) : List α → List (List α) → Option (List α × List (List α))
  | _, [] => none
  | c, d :: ds =>
    let sz := min (L - c.length) d.length
    let c2 := c ++ d.take sz
    if c2.length = L then some (c2, d.drop sz :: ds)
    else chunkFill L c2 ds

/-- Run the chunker for (at most) `n` yields starting from carry `c` and
source tail `p`; after each yield `curr_chunk_sample` is reset to `0`, i.e.
the carry restarts empty.  Returns the list of yielded chunks. -/
def chunkerRun (L : Nat) : Nat → List α → List (List α) → List (List α)
  | 0, _, _ => []
  | n + 1, c, p =>
    match chunkFill L c p with
    | none => []
    | some (b, p2) => b :: chunkerRun L n [] p2

/-! ## Data model of the transfer engine -/

/-- One scan across all channels of a task (one row of the 2-D numpy array). -/
abbrev Row := List Int

/-- A sample block: `num_samples_per_chan` rows of `num_channels` samples,
i.e. the contents of `self._data`. -/
abbrev Block := List Row

/-- `np.zeros((nSamp, nChans))`: the initial `self._data` array
(io_task.py lines 78-81). -/
def zeroBlock (nSamp nChans : Nat) : Block :=
  List.replicate nSamp (List.replicate nChans 0)

/-- `self.cha_type`, either `"input"` or `"output"`. -/
inductive ChaType
  | input
  | output
  deriving DecidableEq

/-- The chunked data generator installed by `set_data_generator`
(io_task.py line 122): a `chunker(...)` generator with its target chunk
size, the filled prefix of `next_chunk`, and the not-yet-consumed source
blocks. -/
structure ChunkGen where
  chunkSize : Nat
  carry : List Row
  pending : List Block
  deriving DecidableEq

/-- `self.data_gen.next()` (io_task.py line 139): advance the chunker to
its next yield; `none` models `StopIteration`. -/
def ChunkGen.next (g : ChunkGen) : Option (Block × ChunkGen) :=
  match chunkFill g.chunkSize g.carry g.pending with
  | none => none
  | some (b, p2) => some (b, { g with carry := [], pending := p2 })

/-- One registered recorder (an element of `self.data_rec`); `sendFails`
(resp. `finishFails`) says whether its `send` (resp. `finish`) call raises. -/
structure Recorder where
  rid : Nat
  sendFails : Bool
  finishFails : Bool
  deriving DecidableEq

/-- The mutable state of an `IOTask` that the callback path touches. -/
structure IOTaskSt where
  chaType : ChaType
  nSamp : Nat
  nChans : Nat
  data : Block
  dataGen : Option ChunkGen
  dataRec : Option (List Recorder)
  deriving DecidableEq

/-- `IOTask.__init__` (io_task.py lines 29-101): `self._data` starts as a
zero array of shape `(num_samples_per_chan, num_channels)`, and both
`self.data_gen` and `self.data_rec` start as `None` (lines 59-60, 78-81). -/
def initTask (ct : ChaType) (nSamp nChans : Nat) : IOTaskSt :=
  { chaType := ct
    nSamp := nSamp
    nChans := nChans
    data := zeroBlock nSamp nChans
    dataGen := none
    dataRec := none }

/-- Observable actions of one callback invocation. -/
inductive CbEv
  | clockSample (t : Nat)
  | hwRead (b : Block)
  | hwWrite (b : Block)
  | recSend (rid : Nat) (b : Block) (t : Nat)
  | newdataSet
  deriving DecidableEq

/-- Exceptions that can escape `EveryNCallback`. -/
inductive CbErr
  | stopIteration
  | recorderError (rid : Nat)
  deriving DecidableEq

/-- The recorder fan-out loop (io_task.py lines 159-162):
`for data_rec in self.data_rec: data_rec.send((self._data, systemtime))`.
Returns the successful `send` events in order and, if some recorder's
`send` raised, the id of the first failing recorder; the `for` loop has no
exception handler, so the first failure aborts the loop. -/
def publishAll (b : Block) (t : Nat) : List Recorder → List CbEv × Option Nat
  | [] => ([], none)
  | r :: rs =>
    if r.sendFails then ([], some r.rid)
    else
      let (evs, e) := publishAll b t rs
      (CbEv.recSend r.rid b t :: evs, e)

/-- The part of `EveryNCallback` after the `data_gen` pull (io_task.py
lines 141-165): the direction-dependent hardware transfer, the recorder
fan-out and `self._newdata_event.set()`. -/
def cbAfterGen (t : Nat) (hw : Block) (st : IOTaskSt) (ev0 : List CbEv) :
    List CbEv × Except CbErr IOTaskSt :=
  let (st2, evTr) :=
    match st.chaType with
    | ChaType.input => ({ st with data := hw }, [CbEv.hwRead hw])
    | ChaType.output => (st, [CbEv.hwWrite st.data])
  match st2.dataRec with
  | none => (ev0 ++ evTr ++ [CbEv.newdataSet], Except.ok st2)
  | some recs =>
    let (evp, err) := publishAll st2.data t recs
    match err with
    | some rid => (ev0 ++ evTr ++ evp, Except.error (CbErr.recorderError rid))
    | none => (ev0 ++ evTr ++ evp ++ [CbEv.newdataSet], Except.ok st2)

/-- `IOTask.EveryNCallback` (io_task.py lines 135-165).  `t` is the value
`time.clock()` returns for this invocation (sampled first, before any
hardware transfer), `hw` is the block the hardware would deliver to a read.
If the installed data generator raises `StopIteration`, the exception
propagates out of the callback (there is no handler). -/
def EveryNCallback (t : Nat) (hw : Block) (st : IOTaskSt) :
    List CbEv × Except CbErr IOTaskSt :=
  let ev0 : List CbEv := [CbEv.clockSample t]
  match st.dataGen with
  | some g =>
    match g.next with
    | none => (ev0, Except.error CbErr.stopIteration)
    | some (b, g2) => cbAfterGen t hw { st with data := b, dataGen := some g2 } ev0
  | none => cbAfterGen t hw st ev0

/-- Repeated callback invocations: `ts` lists the `time.clock()` values of
the successive invocations, `hw` the hardware-side block; an escaping
exception stops the iteration. -/
def iterCallback (hw : Block) : List Nat → IOTaskSt → List CbEv × Except CbErr IOTaskSt
  | [], st => ([], Except.ok st)
  | t :: ts, st =>
    match EveryNCallback t hw st with
    | (evs, Except.error e) => (evs, Except.error e)
    | (evs, Except.ok st2) =>
      let (evs2, r) := iterCallback hw ts st2
      (evs ++ evs2, r)

/-- Result of `IOTask.send` (io_task.py lines 125-131). -/
inductive SendRes
  | valueError
  | wrote (b : Block)
  deriving DecidableEq

/-- `IOTask.send` (io_task.py lines 125-131): raises `ValueError` on an
input channel, otherwise writes the data block to the hardware. -/
def IOTaskSt.send (st : IOTaskSt) (d : Block) : SendRes :=
  if st.chaType = ChaType.input then SendRes.valueError
  else SendRes.wrote d

/-- Observable actions of `IOTask.stop`. -/
inductive StopEv
  | genClose
  | recFinish (rid : Nat)
  | recClose (rid : Nat)
  deriving DecidableEq

/-- The recorder finalization loop of `IOTask.stop` (io_task.py lines
110-113): `for data_rec in self.data_rec: data_rec.finish();
data_rec.close()`.  Returns the events of the completed calls in order
and, if some recorder's `finish` raised, the id of the first failing
recorder; the loop has no exception handler, so the first failure aborts
it. -/
def finalizeRecs : List Recorder → List StopEv × Option Nat
  | [] => ([], none)
  | r :: rs =>
    if r.finishFails then ([], some r.rid)
    else
      let (evs, e) := finalizeRecs rs
      (StopEv.recFinish r.rid :: StopEv.recClose r.rid :: evs, e)

/-- `IOTask.stop` (io_task.py lines 107-113): close the data generator if
one is installed, then finalize the registered recorders in order. -/
def IOTaskSt.stop (st : IOTaskSt) : List StopEv × Option Nat :=
  let evg : List StopEv :=
    match st.dataGen with
    | some _ => [StopEv.genClose]
    | none => []
  match st.dataRec with
  | none => (evg, none)
  | some recs =>
    let (evs, e) := finalizeRecs recs
    (evg ++ evs, e)

/-! ## Hot swap of the output producer
(io_task.py `set_data_generator` lines 115-123 and `EveryNCallback` lines
135-165, both guarded by `self._data_lock`)

A producer is an external data generator; its samples are tagged with the
producer's id, so "a block mixes samples of two producers" is expressible
as the block containing two distinct tags.  `set_data_generator` wraps the
new producer in a fresh `chunker` (fresh `next_chunk`, empty carry) and
installs it under the lock; the callback pulls one chunk under the same
lock.  Both critical sections are split into acquire / act / release
steps, and an arbitrary scheduler interleaves the two contexts. -/

/-- An external producer: its id tag and the lengths of the raw blocks its
generator yields.  Every sample it yields carries its tag. -/
structure Producer where
  tag : Nat
  blockLens : List Nat
  deriving DecidableEq

/-- The raw blocks of a producer: each sample is the producer's tag. -/
def Producer.blocks (p : Producer) : List (List Nat) :=
  p.blockLens.map (fun n => List.replicate n p.tag)

/-- The chunker state stored in `self.data_gen` for the swap model. -/
structure HotChk where
  carry : List Nat
  pending : List (List Nat)
  deriving DecidableEq

/-- The two execution contexts: the control context calling
`set_data_generator`, and the callback context running `EveryNCallback`. -/
inductive Thr
  | ctrl
  | cb
  deriving DecidableEq

/-- Program counter of the control context inside `set_data_generator`. -/
inductive CtrlPc
  | idle
  | acquired (p : Producer)
  | installed
  deriving DecidableEq

/-- Program counter of the callback context inside `EveryNCallback`. -/
inductive CbPc
  | idle
  | acquired
  | produced
  deriving DecidableEq

/-- Shared state of the swap system: the lock `self._data_lock`, the slot
`self.data_gen`, the queue of producers the control context will install,
and both program counters. -/
structure SwapSys where
  lockHolder : Option Thr
  slot : Option HotChk
  queue : List Producer
  ctrlPc : CtrlPc
  cbPc : CbPc
  deriving DecidableEq

/-- Initial swap-system state: lock free, no producer installed. -/
def swapInit (q : List Producer) : SwapSys :=
  { lockHolder := none, slot := none, queue := q
    ctrlPc := CtrlPc.idle, cbPc := CbPc.idle }

/-- One scheduled step of one context.  A context attempting to acquire a
held lock is blocked (no state change).  The control context installs a
*fresh* `chunker(data_generator, chunk_size=L)` (io_task.py line 122); the
callback context pulls the next chunk from the installed slot, emitting the
produced block. -/
def swapStep (L : Nat) (s : SwapSys) : Thr → SwapSys × Option (List Nat)
  | Thr.ctrl =>
    match s.ctrlPc with
    | CtrlPc.idle =>
      match s.queue with
      | [] => (s, none)
      | p :: ps =>
        match s.lockHolder with
        | none =>
          ({ s with lockHolder := some Thr.ctrl, ctrlPc := CtrlPc.acquired p,
                    queue := ps }, none)
        | some _ => (s, none)
    | CtrlPc.acquired p =>
      ({ s with slot := some { carry := [], pending := p.blocks },
                ctrlPc := CtrlPc.installed }, none)
    | CtrlPc.installed =>
      ({ s with lockHolder := none, ctrlPc := CtrlPc.idle }, none)
  | Thr.cb =>
    match s.cbPc with
    | CbPc.idle =>
      match s.lockHolder with
      | none => ({ s with lockHolder := some Thr.cb, cbPc := CbPc.acquired }, none)
      | some _ => (s, none)
    | CbPc.acquired =>
      match s.slot with
      | none => ({ s with cbPc := CbPc.produced }, none)
      | some c =>
        match chunkFill L c.carry c.pending with
        | none => ({ s with cbPc := CbPc.produced }, none)
        | some (b, p2) =>
          ({ s with slot := some { carry := [], pending := p2 },
                    cbPc := CbPc.produced }, some b)
    | CbPc.produced =>
      ({ s with lockHolder := none, cbPc := CbPc.idle }, none)

/-- Run the swap system under a schedule, collecting the produced blocks. -/
def swapRun (L : Nat) (s : SwapSys) : List Thr → List (List Nat)
  | [] => []
  | th :: ths =>
    match swapStep L s th with
    | (s2, none) => swapRun L s2 ths
    | (s2, some b) => b :: swapRun L s2 ths

/-- All samples a chunker state can ever yield carry tag `pid`: both its
carry and every pending source block are pure. -/
abbrev HotChk.pure (c : HotChk) (pid : Nat) : Prop :=
  (∀ x ∈ c.carry, x = pid) ∧ ∀ blk ∈ c.pending, ∀ x ∈ blk, x = pid

/-- Invariant of the swap system: every producer still to be installed has
its tag among `tags` (also while the control context holds it mid-install),
and any installed chunker draws from a single producer among `tags`. -/
abbrev swapInv (tags : List Nat) (s : SwapSys) : Prop :=
  (∀ p ∈ s.queue, p.tag ∈ tags) ∧
  (∀ p, s.ctrlPc = CtrlPc.acquired p → p.tag ∈ tags) ∧
  (∀ c, s.slot = some c → ∃ pid ∈ tags, c.pure pid)

/-! ## The session controller `io_task_main` (io_task.py lines 198-281)

The environment supplies a script: one entry per loop iteration, giving
the value of `RUN.value` observed by that iteration's condition check and
the message (if any) delivered by `message_pipe`.  An exhausted script
reads as `RUN.value == 0`.  Hardware and subprocess effects are emitted as
trace events. -/

/-- The `options` object carried by a `["START", options]` message. -/
structure SessOptions where
  aoChans : List Nat
  aiChans : List Nat
  recFile : Nat
  deriving DecidableEq

/-- The command string of a list-shaped control message. -/
inductive Cmd
  | start
  | other
  deriving DecidableEq

/-- Control messages: an `AudioStim`/`AudioStimPlaylist` carrying a data
generator (identified by a tag), a list-shaped `[command, options]`
message, or a message whose `recv` raises (caught as "Bad message!"). -/
inductive Msg
  | stim (g : Nat)
  | listMsg (c : Cmd) (o : SessOptions)
  | badMsg
  deriving DecidableEq

/-- One environment step: the observed `RUN.value != 0` and the pending
message, if any. -/
abbrev EnvStep := Bool × Option Msg

/-- Observable actions of `io_task_main`. -/
inductive IoEv
  | badMessage
  | createTaskAO (chans : List Nat)
  | createTaskAI (chans : List Nat)
  | dispStart
  | saveStart (f : Nat)
  | setDataGen (g : Nat)
  | cfgStartTrig
  | startTaskAO
  | startTaskAI
  | daqReady (v : Nat)
  | stopTaskAO
  | genCloseAO
  | stopTaskAI
  | recFinish (i : Nat)
  | recClose (i : Nat)
  | clearTaskAO
  | clearTaskAI
  deriving DecidableEq

/-- How `io_task_main` terminates once `RUN` reads as `0`. -/
inductive MainOutcome
  | normal
  | nameErrorOptions
  | nameErrorTask
  deriving DecidableEq

/-- Python-local variables of `io_task_main` that persist across loop
iterations: `cached_data_generator`, `options` (unbound at entry), and
whether `taskAO`/`taskAI` have been assigned. -/
structure MainSt where
  cg : Option Nat
  op : Option SessOptions
  tasksBound : Bool
  deriving DecidableEq

/-- Where control currently is inside `io_task_main`: at the outer
`while RUN.value != 0` check, inside the wait-for-start loop, or inside
the in-session message loop (carrying the session options and whether a
data generator has been installed on the output task). -/
inductive Mode
  | outerCheck
  | waiting
  | session (o : SessOptions) (gi : Bool)
  deriving DecidableEq

/-- Events of the session setup, io_task.py lines 227-259: construct the
output and input tasks, start the display and save recorder processes,
install the cached data generator if any, wire the output start trigger to
the input's, arm the output task, start the input task, set
`DAQ_READY.value = 1`. -/
def setupEvs (o : SessOptions) (cg : Option Nat) : List IoEv :=
  [IoEv.createTaskAO o.aoChans, IoEv.createTaskAI o.aiChans,
   IoEv.dispStart, IoEv.saveStart o.recFile]
  ++ (match cg with | some g => [IoEv.setDataGen g] | none => [])
  ++ [IoEv.cfgStartTrig, IoEv.startTaskAO, IoEv.startTaskAI, IoEv.daqReady 1]

/-- Events of the stop sequence, io_task.py lines 273-276:
`taskAO.StopTask(); taskAO.stop(); taskAI.StopTask(); taskAI.stop()`.
`taskAO.stop` closes its data generator when one is installed; `taskAI.stop`
finalizes the two registered recorders (display, save) in order. -/
def stopEvs (genInstalled : Bool) : List IoEv :=
  [IoEv.stopTaskAO] ++ (if genInstalled then [IoEv.genCloseAO] else [])
  ++ [IoEv.stopTaskAI, IoEv.recFinish 0, IoEv.recClose 0,
      IoEv.recFinish 1, IoEv.recClose 1]

/-- Events of leaving the outer loop, io_task.py lines 278-281:
`taskAO.ClearTask(); taskAI.ClearTask(); DAQ_READY.value = 0` — but a
`NameError` if `taskAO` was never assigned. -/
def finishEvs (tasksBound : Bool) : List IoEv × MainOutcome :=
  if tasksBound then
    ([IoEv.clearTaskAO, IoEv.clearTaskAI, IoEv.daqReady 0], MainOutcome.normal)
  else ([], MainOutcome.nameErrorTask)

/-- The body of `io_task_main` as a state machine over the environment
script.  In `waiting` mode, a `stim` message caches its generator, a list
message binds `options` (whatever its command — io_task.py lines 218-219)
and a `"START"` command leaves the wait loop; leaving the wait loop —
whether by `"START"` or by `RUN` reading `0` — falls through to the session
setup at line 227, which raises `NameError` when `options` was never
bound.  In `session` mode a `stim` message installs a new data generator
on the output task and any other message is silently discarded; `RUN`
reading `0` runs the stop sequence and returns to the outer check. -/
def mainRun : Mode → MainSt → List EnvStep → List IoEv × MainOutcome
  | Mode.outerCheck, st, [] => finishEvs st.tasksBound
  | Mode.waiting, st, [] =>
    (match st.op with
     | none => ([], MainOutcome.nameErrorOptions)
     | some o =>
       let (evs, r) := finishEvs true
       (setupEvs o st.cg ++ stopEvs st.cg.isSome ++ evs, r))
  | Mode.session _ gi, _, [] =>
    (let (evs, r) := finishEvs true
     (stopEvs gi ++ evs, r))
  | Mode.outerCheck, st, (run, _) :: rest =>
    if run then mainRun Mode.waiting st rest
    else finishEvs st.tasksBound
  | Mode.waiting, st, (run, m) :: rest =>
    if run then
      match m with
      | none => mainRun Mode.waiting st rest
      | some (Msg.stim g) => mainRun Mode.waiting { st with cg := some g } rest
      | some (Msg.listMsg c o) =>
        if c = Cmd.start then
          let st2 := { st with op := some o }
          let (evs, r) := mainRun (Mode.session o st2.cg.isSome) st2 rest
          (setupEvs o st2.cg ++ evs, r)
        else mainRun Mode.waiting { st with op := some o } rest
      | some Msg.badMsg =>
        let (evs, r) := mainRun Mode.waiting st rest
        (IoEv.badMessage :: evs, r)
    else
      match st.op with
      | none => ([], MainOutcome.nameErrorOptions)
      | some o =>
        let (evs, r) := mainRun (Mode.session o st.cg.isSome) st rest
        (setupEvs o st.cg ++ evs, r)
  | Mode.session o gi, st, (run, m) :: rest =>
    if run then
      match m with
      | some (Msg.stim g) =>
        let (evs, r) := mainRun (Mode.session o true) st rest
        (IoEv.setDataGen g :: evs, r)
      | _ => mainRun (Mode.session o gi) st rest
    else
      let (evs, r) := mainRun Mode.outerCheck { st with tasksBound := true } rest
      (stopEvs gi ++ evs, r)

/-- `io_task_main` entry point: `cached_data_generator = None`, `options`
and the tasks unbound, control at the outer `while RUN.value != 0`. -/
def ioTaskMain (steps : List EnvStep) : List IoEv × MainOutcome :=
  mainRun Mode.outerCheck { cg := none, op := none, tasksBound := false } steps

/-- Whether an environment step delivers a list-shaped `[command, options]`
message (the only kind that binds the `options` local of `io_task_main`). -/
def isListStep : EnvStep → Bool
  | (_, some (Msg.listMsg _ _)) => true
  | _ => false

/-- A script in which `RUN` is cleared before any `["START", options]`
message is processed, but a list message with a different command arrives
first. -/
def scriptNoStart : List EnvStep :=
  [(true, none),
   (true, some (Msg.listMsg Cmd.other { aoChans := [0], aiChans := [0], recFile := 0 })),
   (false, none)]

/-! ## Concrete states used by counterexamples and witnesses -/

/-- A chunker generator whose source is already exhausted. -/
def exhaustedGen : ChunkGen := { chunkSize := 2, carry := [], pending := [] }

/-- An output task with an exhausted producer installed. -/
def stExhausted : IOTaskSt :=
  { chaType := ChaType.output, nSamp := 2, nChans := 1, data := zeroBlock 2 1,
    dataGen := some exhaustedGen, dataRec := none }

/-- A recorder whose calls all succeed. -/
def recOkA : Recorder := { rid := 1, sendFails := false, finishFails := false }

/-- A recorder whose `send` raises. -/
def recSendBad : Recorder := { rid := 2, sendFails := true, finishFails := false }

/-- A recorder whose `finish` raises. -/
def recFinBad : Recorder := { rid := 2, sendFails := false, finishFails := true }

/-- A third recorder whose calls all succeed. -/
def recOkC : Recorder := { rid := 3, sendFails := false, finishFails := false }

/-- An input task with three registered recorders, the second of which
fails on `send`. -/
def stFanout : IOTaskSt :=
  { chaType := ChaType.input, nSamp := 2, nChans := 1, data := zeroBlock 2 1,
    dataGen := none, dataRec := some [recOkA, recSendBad, recOkC] }

/-- An input task with three registered recorders, the second of which
fails on `finish`. -/
def stFinalize : IOTaskSt :=
  { chaType := ChaType.input, nSamp := 2, nChans := 1, data := zeroBlock 2 1,
    dataGen := none, dataRec := some [recOkA, recFinBad, recOkC] }

/-! ## Theorems -/

/-- Every chunk the chunker yields has exactly the target length: the
`yield` at io_task.py line 316 fires only when `curr_chunk_sample ==
chunk_size`. -/
theorem chunkFill_block_length {α : Type} (L : Nat) :
    ∀ (p : List (List α)) (c b : List α) (p2 : List (List α)),
      chunkFill L c p = some (b, p2) → b.length = L := by
  intro p
  induction p with
  | nil => intro c b p2 h; simp [chunkFill] at h
  | cons d ds ih =>
    intro c b p2 h
    simp only [chunkFill] at h
    split at h
    · next heq =>
      simp only [Option.some.injEq, Prod.mk.injEq] at h
      obtain ⟨rfl, rfl⟩ := h
      exact heq
    · exact ih _ _ _ h

/-- Conservation: one chunker advance neither drops, duplicates nor
reorders samples — the yielded chunk followed by the remaining source tail
is exactly the carry followed by the source tail it started from. -/
theorem chunkFill_flatten {α : Type} (L : Nat) :
    ∀ (p : List (List α)) (c : List α), c.length ≤ L →
      ∀ b p2, chunkFill L c p = some (b, p2) →
        b ++ p2.flatten = c ++ p.flatten := by
  intro p
  induction p with
  | nil => intro c _ b p2 h; simp [chunkFill] at h
  | cons d ds ih =>
    intro c hc b p2 h
    simp only [chunkFill] at h
    split at h
    · next heq =>
      simp only [Option.some.injEq, Prod.mk.injEq] at h
      obtain ⟨rfl, rfl⟩ := h
      simp only [List.flatten_cons]
      rw [List.append_assoc, ← List.append_assoc (d.take (min (L - c.length) d.length)),
        List.take_append_drop]
    · next hne =>
      have hlen : (c ++ d.take (min (L - c.length) d.length)).length
          = c.length + min (L - c.length) d.length := by
        simp only [List.length_append, List.length_take]
        omega
      rw [hlen] at hne
      have hd : min (L - c.length) d.length = d.length := by omega
      have hc2 : (c ++ d.take (min (L - c.length) d.length)).length ≤ L := by
        rw [hlen]; omega
      have hrec := ih _ hc2 b p2 h
      rw [hrec, hd, List.take_length]
      simp [List.flatten_cons]

/-- Aggregate behaviour of the chunker: every yielded chunk has exactly the
target length, and the concatenation of the yielded chunks is a prefix of
the carry followed by the concatenation of the source blocks. -/
theorem chunkerRun_spec {α : Type} (L : Nat) :
    ∀ (n : Nat) (c : List α) (p : List (List α)), c.length ≤ L →
      (∀ b ∈ chunkerRun L n c p, b.length = L) ∧
      ∃ t, (chunkerRun L n c p).flatten ++ t = c ++ p.flatten := by
  intro n
  induction n with
  | zero =>
    intro c p _
    exact ⟨by simp [chunkerRun], c ++ p.flatten, by simp [chunkerRun]⟩
  | succ n ih =>
    intro c p hc
    cases h : chunkFill L c p with
    | none =>
      refine ⟨by simp [chunkerRun, h], c ++ p.flatten, by simp [chunkerRun, h]⟩
    | some bp =>
      obtain ⟨b, p2⟩ := bp
      have hb := chunkFill_block_length L p c b p2 h
      have hf := chunkFill_flatten L p c hc b p2 h
      obtain ⟨hlen, t, ht⟩ := ih [] p2 (by simp)
      constructor
      · intro b2 hb2
        simp only [chunkerRun, h, List.mem_cons] at hb2
        rcases hb2 with rfl | hb2
        · exact hb
        · exact hlen b2 hb2
      · refine ⟨t, ?_⟩
        simp only [chunkerRun, h, List.flatten_cons, List.append_assoc]
        rw [ht]
        simpa using hf

/-- C1: for every source sequence of blocks of arbitrary, possibly varying
lengths and every target length `L > 0`, the chunker produces blocks of
exactly `L` samples per channel, and for every `k` the concatenation of
the first `k` produced blocks is a prefix of the concatenation of the
source blocks — order preserved, no samples dropped, duplicated or
reordered. -/
theorem chunker_exact_blocks_and_prefix {α : Type} (L : Nat) (hL : 0 < L)
    (src : List (List α)) (k : Nat) :
    (∀ b ∈ chunkerRun L k ([] : List α) src, b.length = L) ∧
    ∃ t, (chunkerRun L k ([] : List α) src).flatten ++ t = src.flatten := by
  have h := chunkerRun_spec L k [] src (by simp [Nat.le_of_lt hL, Nat.zero_le])
  simpa using h

/-- Witness for C1 at a concrete input: target length 3, source blocks of
lengths 2 and 5, first 2 produced blocks. -/
theorem chunker_exact_blocks_and_prefix_witness :
    (∀ b ∈ chunkerRun 3 2 ([] : List Nat) [[1, 2], [3, 4, 5, 6, 7]], b.length = 3) ∧
    ∃ t, (chunkerRun 3 2 ([] : List Nat) [[1, 2], [3, 4, 5, 6, 7]]).flatten ++ t
        = ([[1, 2], [3, 4, 5, 6, 7]] : List (List Nat)).flatten :=
  chunker_exact_blocks_and_prefix 3 (by decide) [[1, 2], [3, 4, 5, 6, 7]] 2

/-- A single callback on an output task with no producer installed:
`self.data_gen is None` skips the pull, so the initial zero `self._data`
is written to the hardware and the state is unchanged. -/
theorem everyN_output_default (t : Nat) (hw : Block) (L C : Nat) :
    EveryNCallback t hw (initTask ChaType.output L C)
      = ([CbEv.clockSample t, CbEv.hwWrite (zeroBlock L C), CbEv.newdataSet],
         Except.ok (initTask ChaType.output L C)) := rfl

/-- C4: on an output-direction channel on which no producer has ever been
installed, every callback invocation transfers the channel's initial
block — all-zero of shape `block_length × channel_count` — and completes
normally without blocking. -/
theorem output_no_producer_transfers_zeros (L C : Nat) (ts : List Nat) (hw : Block) :
    iterCallback hw ts (initTask ChaType.output L C)
      = ((ts.map (fun t =>
            [CbEv.clockSample t, CbEv.hwWrite (zeroBlock L C), CbEv.newdataSet])).flatten,
         Except.ok (initTask ChaType.output L C)) ∧
    (zeroBlock L C).length = L ∧ ∀ r ∈ zeroBlock L C, r.length = C := by
  refine ⟨?_, by simp [zeroBlock], ?_⟩
  · induction ts with
    | nil => simp [iterCallback]
    | cons t ts ih => simp [iterCallback, everyN_output_default, ih]
  · intro r hr
    rw [List.eq_of_mem_replicate hr]
    simp



/-- Counterexample to C3 as stated: with an exhausted producer installed,
the callback does not substitute a silence block and complete normally —
the `StopIteration` from `self.data_gen.next()` (io_task.py line 139)
propagates out of `EveryNCallback`, and no hardware write happens (the
trace after the clock sample is empty). -/
theorem exhausted_not_silence_cex :
    (EveryNCallback 0 [] stExhausted).2 = Except.error CbErr.stopIteration ∧
    (EveryNCallback 0 [] stExhausted).1 = [CbEv.clockSample 0] :=
  ⟨rfl, rfl⟩

/-- C3 amended: when the installed output producer is exhausted,
`EveryNCallback` raises `StopIteration` out of the callback: no block
(silence or otherwise) is transferred, nothing is published, and the
callback does not complete normally. -/
theorem exhausted_source_raises (t : Nat) (hw : Block) (st : IOTaskSt) (g : ChunkGen)
    (hg : st.dataGen = some g) (hex : g.next = none) :
    EveryNCallback t hw st = ([CbEv.clockSample t], Except.error CbErr.stopIteration) := by
  simp [EveryNCallback, hg, hex]

/-- Witness for the amended C3 at a concrete exhausted state. -/
theorem exhausted_source_raises_witness :
    EveryNCallback 0 [] stExhausted
      = ([CbEv.clockSample 0], Except.error CbErr.stopIteration) :=
  exhausted_source_raises 0 [] stExhausted exhaustedGen rfl rfl







/-- Counterexample to C5 as stated: with three recorders where the second
raises on `send`, the third does NOT receive the block — the fan-out loop
(io_task.py lines 160-162) has no exception handler, so the error aborts
delivery and escapes the callback. -/
theorem recorder_failure_not_isolated_cex :
    (EveryNCallback 0 [[1], [2]] stFanout).1
      = [CbEv.clockSample 0, CbEv.hwRead [[1], [2]], CbEv.recSend 1 [[1], [2]] 0] ∧
    CbEv.recSend 3 [[1], [2]] 0 ∉ (EveryNCallback 0 [[1], [2]] stFanout).1 ∧
    (EveryNCallback 0 [[1], [2]] stFanout).2 = Except.error (CbErr.recorderError 2) :=
  ⟨rfl, by decide, rfl⟩

/-- When every registered recorder's `send` succeeds, the fan-out loop
delivers the block to each of them in registration order. -/
theorem publishAll_all_ok (b : Block) (t : Nat) :
    ∀ recs : List Recorder, (∀ r ∈ recs, r.sendFails = false) →
      publishAll b t recs = (recs.map (fun r => CbEv.recSend r.rid b t), none) := by
  intro recs
  induction recs with
  | nil => simp [publishAll]
  | cons r rs ih =>
    intro h
    have hr : r.sendFails = false := h r (by simp)
    have hrs := ih (fun r2 hr2 => h r2 (by simp [hr2]))
    simp [publishAll, hr, hrs]

/-- C5 amended: `publish` delivers the `(block, capture_time)` pair to the
registered recorders in registration order, but only up to the first
recorder whose `send` raises: that error aborts the loop, so recorders
registered after the failing one do not receive the block (when no
recorder fails, all receive it in order). -/
theorem publish_order_stops_at_failure (b : Block) (t : Nat)
    (pre post : List Recorder) (bad : Recorder)
    (hpre : ∀ r ∈ pre, r.sendFails = false) (hbad : bad.sendFails = true) :
    publishAll b t (pre ++ bad :: post)
      = (pre.map (fun r => CbEv.recSend r.rid b t), some bad.rid) ∧
    ∀ recs : List Recorder, (∀ r ∈ recs, r.sendFails = false) →
      publishAll b t recs = (recs.map (fun r => CbEv.recSend r.rid b t), none) := by
  refine ⟨?_, publishAll_all_ok b t⟩
  induction pre with
  | nil => simp [publishAll, hbad]
  | cons r rs ih =>
    have hr : r.sendFails = false := hpre r (by simp)
    have hrs := ih (fun r2 hr2 => hpre r2 (by simp [hr2]))
    simp [publishAll, hr, hrs]

/-- Witness for the amended C5: three concrete recorders, the second
failing. -/
theorem publish_order_stops_at_failure_witness :
    (publishAll [[4]] 7 ([recOkA] ++ recSendBad :: [recOkC])
        = ([recOkA].map (fun r => CbEv.recSend r.rid [[4]] 7), some recSendBad.rid)) ∧
    ∀ recs : List Recorder, (∀ r ∈ recs, r.sendFails = false) →
      publishAll [[4]] 7 recs = (recs.map (fun r => CbEv.recSend r.rid [[4]] 7), none) :=
  publish_order_stops_at_failure [[4]] 7 [recOkA] [recOkC] recSendBad
    (by decide) (by decide)


/-- Counterexample to C6 as stated: at channel stop with three recorders
where the second's `finish` raises, the third recorder is NOT finalized
and the error propagates immediately instead of being aggregated — the
loop in `IOTask.stop` (io_task.py lines 111-113) has no exception
handler. -/
theorem finalize_not_aggregated_cex :
    IOTaskSt.stop stFinalize = ([StopEv.recFinish 1, StopEv.recClose 1], some 2) ∧
    StopEv.recFinish 3 ∉ (IOTaskSt.stop stFinalize).1 ∧
    StopEv.recClose 3 ∉ (IOTaskSt.stop stFinalize).1 :=
  ⟨rfl, by decide, by decide⟩

/-- When every recorder's `finish` succeeds, `stop` finalizes each one in
registration order, calling `finish` then `close`. -/
theorem finalizeRecs_all_ok :
    ∀ recs : List Recorder, (∀ r ∈ recs, r.finishFails = false) →
      finalizeRecs recs
        = ((recs.map (fun r => [StopEv.recFinish r.rid, StopEv.recClose r.rid])).flatten,
           none) := by
  intro recs
  induction recs with
  | nil => simp [finalizeRecs]
  | cons r rs ih =>
    intro h
    have hr : r.finishFails = false := h r (by simp)
    have hrs := ih (fun r2 hr2 => h r2 (by simp [hr2]))
    simp [finalizeRecs, hr, hrs]

/-- C6 amended: at channel stop the recorders are finalized (`finish` then
`close`) in registration order, but only up to the first recorder whose
finalization raises: that error propagates immediately, the remaining
recorders are not finalized, and errors are not aggregated (when none
fails, every recorder is finalized in order). -/
theorem finalize_order_stops_at_failure (pre post : List Recorder) (bad : Recorder)
    (hpre : ∀ r ∈ pre, r.finishFails = false) (hbad : bad.finishFails = true) :
    finalizeRecs (pre ++ bad :: post)
      = ((pre.map (fun r => [StopEv.recFinish r.rid, StopEv.recClose r.rid])).flatten,
         some bad.rid) ∧
    ∀ recs : List Recorder, (∀ r ∈ recs, r.finishFails = false) →
      finalizeRecs recs
        = ((recs.map (fun r => [StopEv.recFinish r.rid, StopEv.recClose r.rid])).flatten,
           none) := by
  refine ⟨?_, finalizeRecs_all_ok⟩
  induction pre with
  | nil => simp [finalizeRecs, hbad]
  | cons r rs ih =>
    have hr : r.finishFails = false := hpre r (by simp)
    have hrs := ih (fun r2 hr2 => hpre r2 (by simp [hr2]))
    simp [finalizeRecs, hr, hrs]

/-- Witness for the amended C6: three concrete recorders, the second
failing on `finish`. -/
theorem finalize_order_stops_at_failure_witness :
    (finalizeRecs ([recOkA] ++ recFinBad :: [recOkC])
        = (([recOkA].map (fun r => [StopEv.recFinish r.rid, StopEv.recClose r.rid])).flatten,
           some recFinBad.rid)) ∧
    ∀ recs : List Recorder, (∀ r ∈ recs, r.finishFails = false) →
      finalizeRecs recs
        = ((recs.map (fun r => [StopEv.recFinish r.rid, StopEv.recClose r.rid])).flatten,
           none) :=
  finalize_order_stops_at_failure [recOkA] [recOkC] recFinBad (by decide) (by decide)

/-- Every event the fan-out loop emits is a `send` of the given block and
capture time. -/
theorem publishAll_events (b : Block) (t : Nat) :
    ∀ recs : List Recorder, ∀ e ∈ (publishAll b t recs).1,
      ∃ rid, e = CbEv.recSend rid b t := by
  intro recs
  induction recs with
  | nil => simp [publishAll]
  | cons r rs ih =>
    by_cases hr : r.sendFails
    · simp [publishAll, hr]
    · intro e he
      simp only [publishAll, hr] at he
      simp only [Bool.false_eq_true, if_false, List.mem_cons] at he
      rcases he with rfl | he
      · exact ⟨r.rid, rfl⟩
      · exact ih e he

/-- Shape of the trace tail after the clock sample: a hardware transfer of
block `d`, the published pairs (all carrying `d` and the capture time),
and possibly the new-data signal. -/
theorem fanRest_spec (t : Nat) (d : Block) (hd : CbEv) (tl evp : List CbEv)
    (hhd : hd = CbEv.hwRead d ∨ hd = CbEv.hwWrite d)
    (htl : ∀ u, CbEv.clockSample u ∉ tl)
    (htl2 : ∀ rid b u, CbEv.recSend rid b u ∉ tl)
    (hev : ∀ e ∈ evp, ∃ rid, e = CbEv.recSend rid d t) :
    (∀ u, CbEv.clockSample u ∉ hd :: (evp ++ tl)) ∧
    (∀ rid b u, CbEv.recSend rid b u ∈ hd :: (evp ++ tl) →
      u = t ∧ (CbEv.hwRead b ∈ hd :: (evp ++ tl) ∨ CbEv.hwWrite b ∈ hd :: (evp ++ tl))) := by
  constructor
  · intro u
    simp only [List.mem_cons, List.mem_append]
    rintro (h | h | h)
    · rcases hhd with rfl | rfl <;> simp at h
    · obtain ⟨rid, heq⟩ := hev _ h
      simp at heq
    · exact htl u h
  · intro rid b u hmem
    simp only [List.mem_cons, List.mem_append] at hmem
    rcases hmem with h | h | h
    · rcases hhd with rfl | rfl <;> simp at h
    · obtain ⟨rid2, heq⟩ := hev _ h
      simp only [CbEv.recSend.injEq] at heq
      obtain ⟨_, rfl, rfl⟩ := heq
      refine ⟨rfl, ?_⟩
      rcases hhd with rfl | rfl
      · exact Or.inl (List.mem_cons_self _ _)
      · exact Or.inr (List.mem_cons_self _ _)
    · exact absurd h (htl2 rid b u)

/-- After the clock sample, the rest of a callback's trace contains no
further clock sample, and every published pair carries the sampled time
together with the block transferred in the same invocation. -/
theorem cbAfterGen_spec (t : Nat) (hw : Block) (st : IOTaskSt) :
    ∃ rest, (cbAfterGen t hw st [CbEv.clockSample t]).1 = CbEv.clockSample t :: rest ∧
      (∀ u, CbEv.clockSample u ∉ rest) ∧
      (∀ rid b u, CbEv.recSend rid b u ∈ rest →
        u = t ∧ (CbEv.hwRead b ∈ rest ∨ CbEv.hwWrite b ∈ rest)) := by
  cases hct : st.chaType
  case input =>
    cases hdr : st.dataRec
    case none =>
      refine ⟨CbEv.hwRead hw :: ([] ++ [CbEv.newdataSet]), ?_, ?_, ?_⟩
      · simp [cbAfterGen, hct, hdr]
      · exact (fanRest_spec t hw _ _ [] (Or.inl rfl) (by simp) (by simp) (by simp)).1
      · exact (fanRest_spec t hw _ _ [] (Or.inl rfl) (by simp) (by simp) (by simp)).2
    case some recs =>
      rcases hpub : publishAll hw t recs with ⟨evp, err⟩
      have hev : ∀ e ∈ evp, ∃ rid, e = CbEv.recSend rid hw t := by
        intro e he
        exact publishAll_events hw t recs e (by rw [hpub]; exact he)
      cases err
      case none =>
        refine ⟨CbEv.hwRead hw :: (evp ++ [CbEv.newdataSet]), ?_, ?_, ?_⟩
        · simp [cbAfterGen, hct, hdr, hpub]
        · exact (fanRest_spec t hw _ _ evp (Or.inl rfl) (by simp) (by simp) hev).1
        · exact (fanRest_spec t hw _ _ evp (Or.inl rfl) (by simp) (by simp) hev).2
      case some rid =>
        refine ⟨CbEv.hwRead hw :: (evp ++ []), ?_, ?_, ?_⟩
        · simp [cbAfterGen, hct, hdr, hpub]
        · exact (fanRest_spec t hw _ _ evp (Or.inl rfl) (by simp) (by simp) hev).1
        · exact (fanRest_spec t hw _ _ evp (Or.inl rfl) (by simp) (by simp) hev).2
  case output =>
    cases hdr : st.dataRec
    case none =>
      refine ⟨CbEv.hwWrite st.data :: ([] ++ [CbEv.newdataSet]), ?_, ?_, ?_⟩
      · simp [cbAfterGen, hct, hdr]
      · exact (fanRest_spec t st.data _ _ [] (Or.inr rfl) (by simp) (by simp) (by simp)).1
      · exact (fanRest_spec t st.data _ _ [] (Or.inr rfl) (by simp) (by simp) (by simp)).2
    case some recs =>
      rcases hpub : publishAll st.data t recs with ⟨evp, err⟩
      have hev : ∀ e ∈ evp, ∃ rid, e = CbEv.recSend rid st.data t := by
        intro e he
        exact publishAll_events st.data t recs e (by rw [hpub]; exact he)
      cases err
      case none =>
        refine ⟨CbEv.hwWrite st.data :: (evp ++ [CbEv.newdataSet]), ?_, ?_, ?_⟩
        · simp [cbAfterGen, hct, hdr, hpub]
        · exact (fanRest_spec t st.data _ _ evp (Or.inr rfl) (by simp) (by simp) hev).1
        · exact (fanRest_spec t st.data _ _ evp (Or.inr rfl) (by simp) (by simp) hev).2
      case some rid =>
        refine ⟨CbEv.hwWrite st.data :: (evp ++ []), ?_, ?_, ?_⟩
        · simp [cbAfterGen, hct, hdr, hpub]
        · exact (fanRest_spec t st.data _ _ evp (Or.inr rfl) (by simp) (by simp) hev).1
        · exact (fanRest_spec t st.data _ _ evp (Or.inr rfl) (by simp) (by simp) hev).2

/-- C7: in every callback invocation the capture time is sampled exactly
once — it is the first event of the invocation's trace, so it precedes any
hardware read or write — and every pair published to a recorder in that
invocation carries that same capture time together with the block
transferred in that invocation. -/
theorem capture_time_once_before_transfer (t : Nat) (hw : Block) (st : IOTaskSt) :
    ∃ rest, (EveryNCallback t hw st).1 = CbEv.clockSample t :: rest ∧
      (∀ u, CbEv.clockSample u ∉ rest) ∧
      (∀ rid b u, CbEv.recSend rid b u ∈ rest →
        u = t ∧ (CbEv.hwRead b ∈ rest ∨ CbEv.hwWrite b ∈ rest)) := by
  cases hg : st.dataGen
  case none =>
    have h := cbAfterGen_spec t hw st
    simpa [EveryNCallback, hg] using h
  case some g =>
    cases hn : g.next
    case none =>
      exact ⟨[], by simp [EveryNCallback, hg, hn], by simp, by simp⟩
    case some bg =>
      have h := cbAfterGen_spec t hw { st with data := bg.1, dataGen := some bg.2 }
      simpa [EveryNCallback, hg, hn] using h

/-- C9: `send` raises `ValueError` exactly on input-direction channels,
for every data argument, and performs no transfer there; on an output
channel it writes the data without raising. -/
theorem send_input_raises (st : IOTaskSt) (d : Block) :
    (st.send d = SendRes.valueError ↔ st.chaType = ChaType.input) ∧
    (st.chaType = ChaType.output → st.send d = SendRes.wrote d) := by
  cases h : st.chaType <;> simp [IOTaskSt.send, h]

/-- Witness for C9: the output direction of the inner implication at a
concrete task and block. -/
theorem send_input_raises_witness :
    (initTask ChaType.output 2 1).send [[5]] = SendRes.wrote [[5]] :=
  (send_input_raises (initTask ChaType.output 2 1) [[5]]).2 rfl

/-- The chunker preserves producer purity: a chunk pulled from a
single-producer source consists of that producer's samples only, and the
remaining source is still single-producer. -/
theorem chunkFill_pure (L pid : Nat) :
    ∀ (p : List (List Nat)) (c : List Nat),
      (∀ x ∈ c, x = pid) → (∀ blk ∈ p, ∀ x ∈ blk, x = pid) →
      ∀ b p2, chunkFill L c p = some (b, p2) →
        (∀ x ∈ b, x = pid) ∧ ∀ blk ∈ p2, ∀ x ∈ blk, x = pid := by
  intro p
  induction p with
  | nil => intro c _ _ b p2 h; simp [chunkFill] at h
  | cons d ds ih =>
    intro c hc hp b p2 h
    simp only [chunkFill] at h
    have hd : ∀ x ∈ d, x = pid := hp d (by simp)
    have hds : ∀ blk ∈ ds, ∀ x ∈ blk, x = pid := fun blk hb => hp blk (by simp [hb])
    have hc2 : ∀ x ∈ c ++ d.take (min (L - c.length) d.length), x = pid := by
      intro x hx
      rcases List.mem_append.mp hx with hx | hx
      · exact hc x hx
      · exact hd x (List.mem_of_mem_take hx)
    split at h
    · next heq =>
      simp only [Option.some.injEq, Prod.mk.injEq] at h
      obtain ⟨rfl, rfl⟩ := h
      refine ⟨hc2, ?_⟩
      intro blk hb
      rcases List.mem_cons.mp hb with rfl | hb
      · intro x hx
        exact hd x (List.mem_of_mem_drop hx)
      · exact hds blk hb
    · exact ih _ hc2 hds b p2 h

/-- Every sample of every raw block of a producer carries its tag. -/
theorem producer_blocks_pure (p : Producer) :
    ∀ blk ∈ p.blocks, ∀ x ∈ blk, x = p.tag := by
  intro blk hb x hx
  simp only [Producer.blocks, List.mem_map] at hb
  obtain ⟨n, _, rfl⟩ := hb
  exact List.eq_of_mem_replicate hx

/-- Every scheduled step preserves the swap-system invariant, and any
block it emits consists of a single producer's samples. -/
theorem swapStep_inv (L : Nat) (tags : List Nat) (s : SwapSys) (th : Thr)
    (h : swapInv tags s) :
    swapInv tags (swapStep L s th).1 ∧
    ∀ b, (swapStep L s th).2 = some b → ∃ pid ∈ tags, ∀ x ∈ b, x = pid := by
  obtain ⟨hq, hctrl, hslot⟩ := h
  cases th
  case ctrl =>
    cases hpc : s.ctrlPc
    case idle =>
      cases hqe : s.queue
      case nil =>
        simp only [swapStep, hpc, hqe]
        exact ⟨⟨hq, hctrl, hslot⟩, by simp⟩
      case cons p ps =>
        cases hl : s.lockHolder
        case none =>
          simp only [swapStep, hpc, hqe, hl]
          refine ⟨⟨?_, ?_, ?_⟩, by simp⟩
          · intro p2 hp2
            exact hq p2 (by rw [hqe]; exact List.mem_cons_of_mem _ hp2)
          · intro p2 hp2
            simp only [CtrlPc.acquired.injEq] at hp2
            subst hp2
            exact hq p (by rw [hqe]; exact List.mem_cons_self _ _)
          · exact hslot
        case some t0 =>
          simp only [swapStep, hpc, hqe, hl]
          exact ⟨⟨hq, hctrl, hslot⟩, by simp⟩
    case acquired p =>
      simp only [swapStep, hpc]
      refine ⟨⟨hq, ?_, ?_⟩, by simp⟩
      · intro p2 hp2
        simp at hp2
      · intro c hc
        simp only [Option.some.injEq] at hc
        subst hc
        refine ⟨p.tag, hctrl p hpc, ?_, ?_⟩
        · simp [HotChk.pure]
        · exact producer_blocks_pure p
    case installed =>
      simp only [swapStep, hpc]
      exact ⟨⟨hq, fun p2 hp2 => by simp at hp2, hslot⟩, by simp⟩
  case cb =>
    cases hpc : s.cbPc
    case idle =>
      cases hl : s.lockHolder
      case none =>
        simp only [swapStep, hpc, hl]
        exact ⟨⟨hq, hctrl, hslot⟩, by simp⟩
      case some t0 =>
        simp only [swapStep, hpc, hl]
        exact ⟨⟨hq, hctrl, hslot⟩, by simp⟩
    case acquired =>
      cases hsl : s.slot
      case none =>
        simp only [swapStep, hpc, hsl]
        exact ⟨⟨hq, hctrl, fun c hc => by simp at hc⟩, by simp⟩
      case some c =>
        obtain ⟨pid, hpid, hcar, hpend⟩ := hslot c hsl
        cases hcf : chunkFill L c.carry c.pending
        case none =>
          simp only [swapStep, hpc, hsl, hcf]
          refine ⟨⟨hq, hctrl, ?_⟩, by simp⟩
          intro c2 hc2
          simp only [Option.some.injEq] at hc2
          subst hc2
          exact ⟨pid, hpid, hcar, hpend⟩
        case some bp =>
          obtain ⟨b, p2⟩ := bp
          obtain ⟨hb, hp2⟩ := chunkFill_pure L pid c.pending c.carry hcar hpend b p2 hcf
          simp only [swapStep, hpc, hsl, hcf]
          refine ⟨⟨hq, hctrl, ?_⟩, ?_⟩
          · intro c2 hc2
            simp only [Option.some.injEq] at hc2
            subst hc2
            exact ⟨pid, hpid, by simp [HotChk.pure], hp2⟩
          · intro b2 hb2
            simp only [Option.some.injEq] at hb2
            subst hb2
            exact ⟨pid, hpid, hb⟩
    case produced =>
      simp only [swapStep, hpc]
      exact ⟨⟨hq, hctrl, hslot⟩, by simp⟩

/-- Under any schedule, from any state satisfying the invariant, every
block the swap system emits carries a single producer tag. -/
theorem swapRun_pure (L : Nat) (tags : List Nat) :
    ∀ (sched : List Thr) (s : SwapSys), swapInv tags s →
      ∀ b ∈ swapRun L s sched, ∃ pid ∈ tags, ∀ x ∈ b, x = pid := by
  intro sched
  induction sched with
  | nil => simp [swapRun]
  | cons th ths ih =>
    intro s hs b hb
    obtain ⟨hinv, hout⟩ := swapStep_inv L tags s th hs
    rcases hstep : swapStep L s th with ⟨s2, out⟩
    rw [hstep] at hinv hout
    cases out
    case none =>
      simp only [swapRun, hstep] at hb
      exact ih s2 hinv b hb
    case some b0 =>
      simp only [swapRun, hstep, List.mem_cons] at hb
      rcases hb with rfl | hb
      · exact hout b rfl
      · exact ih s2 hinv b hb

/-- C2: for any interleaving of `set_data_generator` steps from the
control context and `EveryNCallback` production steps from the callback
context, every produced block consists entirely of samples of one
installed producer — a swap never yields a block mixing two producers,
because each installed producer gets a fresh `chunker` and both critical
sections run under `self._data_lock`. -/
theorem hotswap_block_single_producer (L : Nat) (q : List Producer)
    (sched : List Thr) (b : List Nat)
    (hb : b ∈ swapRun L (swapInit q) sched) :
    ∃ pid, pid ∈ q.map Producer.tag ∧ ∀ x ∈ b, x = pid := by
  have hinv : swapInv (q.map Producer.tag) (swapInit q) := by
    refine ⟨?_, ?_, ?_⟩
    · intro p hp
      exact List.mem_map_of_mem _ hp
    · intro p hp
      simp [swapInit] at hp
    · intro c hc
      simp [swapInit] at hc
  obtain ⟨pid, hpid, hx⟩ := swapRun_pure L _ sched (swapInit q) hinv b hb
  exact ⟨pid, hpid, hx⟩

/-- Witness for C2: one producer with tag 7, a schedule that installs it
and then produces one block of length 2. -/
theorem hotswap_block_single_producer_witness :
    ∃ pid, pid ∈ ([{ tag := 7, blockLens := [3] }] : List Producer).map Producer.tag ∧
      ∀ x ∈ ([7, 7] : List Nat), x = pid :=
  hotswap_block_single_producer 2 [{ tag := 7, blockLens := [3] }]
    [Thr.ctrl, Thr.ctrl, Thr.ctrl, Thr.cb, Thr.cb, Thr.cb] [7, 7] (by decide)

/-- In-session behaviour: from the moment a session's transfer is running,
the trace consists of source-swap events only, followed by the stop
sequence, followed by whatever the outer loop does next. -/
theorem mainRun_session_decomp :
    ∀ (steps : List EnvStep) (o : SessOptions) (gi : Bool) (st : MainSt),
      ∃ swaps gi2 rest,
        mainRun (Mode.session o gi) st steps
          = (swaps ++ stopEvs gi2
              ++ (mainRun Mode.outerCheck { st with tasksBound := true } rest).1,
             (mainRun Mode.outerCheck { st with tasksBound := true } rest).2) ∧
        ∀ e ∈ swaps, ∃ g, e = IoEv.setDataGen g := by
  intro steps
  induction steps with
  | nil =>
    intro o gi st
    refine ⟨[], gi, [], ?_, by simp⟩
    simp [mainRun, finishEvs]
  | cons s rest ih =>
    intro o gi st
    obtain ⟨run, m⟩ := s
    cases run
    case false =>
      refine ⟨[], gi, rest, ?_, by simp⟩
      simp [mainRun]
    case true =>
      match m with
      | some (Msg.stim g) =>
        obtain ⟨swaps, gi2, rest2, heq, hsw⟩ := ih o true st
        refine ⟨IoEv.setDataGen g :: swaps, gi2, rest2, ?_, ?_⟩
        · simp [mainRun, heq]
        · intro e he
          rcases List.mem_cons.mp he with rfl | he
          · exact ⟨g, rfl⟩
          · exact hsw e he
      | none =>
        obtain ⟨swaps, gi2, rest2, heq, hsw⟩ := ih o gi st
        exact ⟨swaps, gi2, rest2, by simp [mainRun, heq], hsw⟩
      | some (Msg.listMsg c o2) =>
        obtain ⟨swaps, gi2, rest2, heq, hsw⟩ := ih o gi st
        exact ⟨swaps, gi2, rest2, by simp [mainRun, heq], hsw⟩
      | some Msg.badMsg =>
        obtain ⟨swaps, gi2, rest2, heq, hsw⟩ := ih o gi st
        exact ⟨swaps, gi2, rest2, by simp [mainRun, heq], hsw⟩

/-- Whenever `io_task_main` exits normally, the last things it does are
releasing the hardware tasks and publishing `DAQ_READY = 0` (io_task.py
lines 278-281). -/
theorem mainRun_normal_ends :
    ∀ (steps : List EnvStep) (mo : Mode) (st : MainSt),
      (mainRun mo st steps).2 = MainOutcome.normal →
      ∃ t2, (mainRun mo st steps).1
        = t2 ++ [IoEv.clearTaskAO, IoEv.clearTaskAI, IoEv.daqReady 0] := by
  intro steps
  induction steps with
  | nil =>
    intro mo st h
    match mo with
    | Mode.outerCheck =>
      cases htb : st.tasksBound
      · rw [show mainRun Mode.outerCheck st [] = finishEvs st.tasksBound from rfl, htb] at h ⊢
        simp [finishEvs] at h
      · rw [show mainRun Mode.outerCheck st [] = finishEvs st.tasksBound from rfl, htb]
        exact ⟨[], rfl⟩
    | Mode.waiting =>
      cases hop : st.op
      case none => simp [mainRun, hop] at h
      case some o =>
        exact ⟨setupEvs o st.cg ++ stopEvs st.cg.isSome,
          by simp [mainRun, hop, finishEvs]⟩
    | Mode.session o gi =>
      refine ⟨stopEvs gi, ?_⟩
      simp [mainRun, finishEvs]
  | cons s rest ih =>
    intro mo st h
    obtain ⟨run, m⟩ := s
    match mo with
    | Mode.outerCheck =>
      cases run
      case false =>
        cases htb : st.tasksBound
        · simp only [mainRun, Bool.false_eq_true, if_false, htb, finishEvs] at h
          exact absurd h (by decide)
        · refine ⟨[], ?_⟩
          simp [mainRun, htb, finishEvs]
      case true =>
        simp only [mainRun, if_true] at h ⊢
        exact ih Mode.waiting st h
    | Mode.waiting =>
      cases run
      case false =>
        cases hop : st.op
        · simp [mainRun, hop] at h
        · next o =>
          simp only [mainRun, Bool.false_eq_true, if_false, hop] at h ⊢
          obtain ⟨t2, ht⟩ := ih (Mode.session o st.cg.isSome) st h
          exact ⟨setupEvs o st.cg ++ t2, by simp [ht]⟩
      case true =>
        match m with
        | none =>
          simp only [mainRun, if_true] at h ⊢
          exact ih Mode.waiting st h
        | some (Msg.stim g) =>
          simp only [mainRun, if_true] at h ⊢
          exact ih Mode.waiting _ h
        | some (Msg.listMsg c o) =>
          cases c
          case start =>
            simp only [mainRun, if_true, reduceIte] at h ⊢
            obtain ⟨t2, ht⟩ := ih (Mode.session o st.cg.isSome)
              { cg := st.cg, op := some o, tasksBound := st.tasksBound } h
            exact ⟨setupEvs o st.cg ++ t2, by simp [ht]⟩
          case other =>
            simp only [mainRun, if_true, reduceIte] at h ⊢
            exact ih Mode.waiting _ h
        | some Msg.badMsg =>
          simp only [mainRun, if_true] at h ⊢
          obtain ⟨t2, ht⟩ := ih Mode.waiting st h
          exact ⟨IoEv.badMessage :: t2, by simp [ht]⟩
    | Mode.session o gi =>
      cases run
      case false =>
        simp only [mainRun, Bool.false_eq_true, if_false] at h ⊢
        obtain ⟨t2, ht⟩ := ih Mode.outerCheck _ h
        exact ⟨stopEvs gi ++ t2, by simp [ht]⟩
      case true =>
        match m with
        | none =>
          simp only [mainRun, if_true] at h ⊢
          exact ih _ st h
        | some (Msg.stim g) =>
          simp only [mainRun, if_true] at h ⊢
          obtain ⟨t2, ht⟩ := ih (Mode.session o true) st h
          exact ⟨IoEv.setDataGen g :: t2, by simp [ht]⟩
        | some (Msg.listMsg c o2) =>
          simp only [mainRun, if_true] at h ⊢
          exact ih _ st h
        | some Msg.badMsg =>
          simp only [mainRun, if_true] at h ⊢
          exact ih _ st h

/-- C8: processing a `["START", options]` message runs the session
lifecycle in the stated order — construct the output and input channels
(and the recorder processes), install any cached source, configure the
output to wait on the input's start trigger and arm it, start the input,
publish `DAQ_READY = 1`; during the session only source swaps occur; on
the stop signal the output is stopped before the input, the recorders are
finalized in order, and a normal exit ends by releasing both hardware
tasks and then publishing `DAQ_READY = 0`. -/
theorem session_lifecycle_order (st : MainSt) (o : SessOptions) (rest : List EnvStep) :
    ∃ (swaps : List IoEv) (gi2 : Bool) (tail : List IoEv) (out : MainOutcome),
      mainRun Mode.waiting st ((true, some (Msg.listMsg Cmd.start o)) :: rest)
        = ([IoEv.createTaskAO o.aoChans, IoEv.createTaskAI o.aiChans,
            IoEv.dispStart, IoEv.saveStart o.recFile]
           ++ (match st.cg with | some g => [IoEv.setDataGen g] | none => [])
           ++ [IoEv.cfgStartTrig, IoEv.startTaskAO, IoEv.startTaskAI, IoEv.daqReady 1]
           ++ swaps
           ++ ([IoEv.stopTaskAO] ++ (if gi2 then [IoEv.genCloseAO] else [])
               ++ [IoEv.stopTaskAI, IoEv.recFinish 0, IoEv.recClose 0,
                   IoEv.recFinish 1, IoEv.recClose 1])
           ++ tail, out) ∧
      (∀ e ∈ swaps, ∃ g, e = IoEv.setDataGen g) ∧
      (out = MainOutcome.normal →
        ∃ t2, tail = t2 ++ [IoEv.clearTaskAO, IoEv.clearTaskAI, IoEv.daqReady 0]) := by
  obtain ⟨swaps, gi2, rest2, heq, hsw⟩ :=
    mainRun_session_decomp rest o st.cg.isSome
      { cg := st.cg, op := some o, tasksBound := st.tasksBound }
  dsimp only at heq
  refine ⟨swaps, gi2,
    (mainRun Mode.outerCheck
      { cg := st.cg, op := some o, tasksBound := true } rest2).1,
    (mainRun Mode.outerCheck
      { cg := st.cg, op := some o, tasksBound := true } rest2).2, ?_, hsw, ?_⟩
  · simp only [mainRun, if_true, reduceIte]
    rw [heq]
    simp [setupEvs, stopEvs]
  · intro hnorm
    exact mainRun_normal_ends rest2 Mode.outerCheck
      { cg := st.cg, op := some o, tasksBound := true } hnorm

/-- Counterexample to C10 as stated: in `scriptNoStart` the `Running` flag
is cleared before any `StartSession` (`["START", ...]`) message has been
processed, yet `io_task_main` does NOT raise a `NameError`: a list message
with a non-`"START"` command already bound `options` (io_task.py lines
218-219 bind `options` for every list message), so the session setup runs,
the script ends, and `DAQ_READY = 0` is published on a normal exit. -/
theorem run_cleared_before_start_cex :
    (∀ s ∈ scriptNoStart, ∀ o : SessOptions, s.2 ≠ some (Msg.listMsg Cmd.start o)) ∧
    (ioTaskMain scriptNoStart).2 = MainOutcome.normal ∧
    IoEv.daqReady 0 ∈ (ioTaskMain scriptNoStart).1 := by
  refine ⟨?_, rfl, by decide⟩
  intro s hs o
  fin_cases hs <;> simp [scriptNoStart]

/-- If no list-shaped message ever arrives, the wait loop of
`io_task_main` never binds `options` and never starts a session: it ends
in a `NameError` at the session setup, with no `DAQ_READY` write in its
trace. -/
theorem mainRun_waiting_no_list :
    ∀ (steps : List EnvStep) (cg : Option Nat),
      (∀ s ∈ steps, isListStep s = false) →
      (mainRun Mode.waiting { cg := cg, op := none, tasksBound := false } steps).2
          = MainOutcome.nameErrorOptions ∧
      ∀ v, IoEv.daqReady v
        ∉ (mainRun Mode.waiting { cg := cg, op := none, tasksBound := false } steps).1 := by
  intro steps
  induction steps with
  | nil => intro cg _; simp [mainRun]
  | cons s rest ih =>
    intro cg h
    obtain ⟨run, m⟩ := s
    have hrest : ∀ s ∈ rest, isListStep s = false :=
      fun s hs => h s (List.mem_cons_of_mem _ hs)
    cases run
    case false => simp [mainRun]
    case true =>
      match m with
      | none =>
        simpa only [mainRun, if_true] using ih cg hrest
      | some (Msg.stim g) =>
        simpa only [mainRun, if_true] using ih (some g) hrest
      | some (Msg.listMsg c o) =>
        exact absurd (h (true, some (Msg.listMsg c o)) (List.mem_cons_self _ _))
          (by simp [isListStep])
      | some Msg.badMsg =>
        obtain ⟨h1, h2⟩ := ih cg hrest
        refine ⟨by simpa only [mainRun, if_true] using h1, ?_⟩
        intro v
        simp only [mainRun, if_true, List.mem_cons]
        rintro (heq | hmem)
        · exact IoEv.noConfusion heq
        · exact h2 v hmem

/-- C10 amended: if the `Running` flag is cleared before any list-shaped
control message has been received (in particular before any
`StartSession`), `io_task_main` does not exit cleanly: it raises an
unhandled `NameError` — at `options` if the wait loop was entered, at
`taskAO` during teardown otherwise — and never reaches the statement that
publishes `DAQ_READY = 0` (nor any `DAQ_READY` write). -/
theorem run_cleared_no_list_name_error (steps : List EnvStep)
    (h : ∀ s ∈ steps, isListStep s = false) :
    ((ioTaskMain steps).2 = MainOutcome.nameErrorOptions ∨
     (ioTaskMain steps).2 = MainOutcome.nameErrorTask) ∧
    ∀ v, IoEv.daqReady v ∉ (ioTaskMain steps).1 := by
  match steps with
  | [] =>
    constructor
    · right
      rfl
    · intro v
      simp [ioTaskMain, mainRun, finishEvs]
  | (run, m) :: rest =>
    have hrest : ∀ s ∈ rest, isListStep s = false :=
      fun s hs => h s (List.mem_cons_of_mem _ hs)
    cases run
    case false =>
      constructor
      · right
        rfl
      · intro v
        simp [ioTaskMain, mainRun, finishEvs]
    case true =>
      obtain ⟨h1, h2⟩ := mainRun_waiting_no_list rest none hrest
      exact ⟨Or.inl (by simpa only [ioTaskMain, mainRun, if_true] using h1),
        fun v => by simpa only [ioTaskMain, mainRun, if_true] using h2 v⟩

/-- Witness for the amended C10: a script with one `RUN` check observing
`1` and no message, then `RUN` cleared. -/
theorem run_cleared_no_list_name_error_witness :
    (((ioTaskMain [(true, none), (false, none)]).2 = MainOutcome.nameErrorOptions ∨
      (ioTaskMain [(true, none), (false, none)]).2 = MainOutcome.nameErrorTask)) ∧
    ∀ v, IoEv.daqReady v ∉ (ioTaskMain [(true, none), (false, none)]).1 :=
  run_cleared_no_list_name_error [(true, none), (false, none)] (by decide)

/-- Witness for C4 at a concrete shape and clock value. -/
theorem output_no_producer_transfers_zeros_witness :
    iterCallback [[3]] [5] (initTask ChaType.output 1 1)
      = ((([5] : List Nat).map (fun t =>
            [CbEv.clockSample t, CbEv.hwWrite (zeroBlock 1 1), CbEv.newdataSet])).flatten,
         Except.ok (initTask ChaType.output 1 1)) ∧
    (zeroBlock 1 1).length = 1 ∧ ∀ r ∈ zeroBlock 1 1, r.length = 1 :=
  output_no_producer_transfers_zeros 1 1 [5] [[3]]

/-- Witness for C7 at a concrete input-direction callback. -/
theorem capture_time_once_before_transfer_witness :
    ∃ rest, (EveryNCallback 4 [[2]] (initTask ChaType.input 1 1)).1
        = CbEv.clockSample 4 :: rest ∧
      (∀ u, CbEv.clockSample u ∉ rest) ∧
      (∀ rid b u, CbEv.recSend rid b u ∈ rest →
        u = 4 ∧ (CbEv.hwRead b ∈ rest ∨ CbEv.hwWrite b ∈ rest)) :=
  capture_time_once_before_transfer 4 [[2]] (initTask ChaType.input 1 1)

/-- Witness for C8 at a concrete `START` message and empty remainder. -/
theorem session_lifecycle_order_witness :
    ∃ (swaps : List IoEv) (gi2 : Bool) (tail : List IoEv) (out : MainOutcome),
      mainRun Mode.waiting { cg := none, op := none, tasksBound := false }
          ((true, some (Msg.listMsg Cmd.start
              { aoChans := [0], aiChans := [1], recFile := 2 })) :: [])
        = ([IoEv.createTaskAO [0], IoEv.createTaskAI [1],
            IoEv.dispStart, IoEv.saveStart 2]
           ++ []
           ++ [IoEv.cfgStartTrig, IoEv.startTaskAO, IoEv.startTaskAI, IoEv.daqReady 1]
           ++ swaps
           ++ ([IoEv.stopTaskAO] ++ (if gi2 then [IoEv.genCloseAO] else [])
               ++ [IoEv.stopTaskAI, IoEv.recFinish 0, IoEv.recClose 0,
                   IoEv.recFinish 1, IoEv.recClose 1])
           ++ tail, out) ∧
      (∀ e ∈ swaps, ∃ g, e = IoEv.setDataGen g) ∧
      (out = MainOutcome.normal →
        ∃ t2, tail = t2 ++ [IoEv.clearTaskAO, IoEv.clearTaskAI, IoEv.daqReady 0]) :=
  session_lifecycle_order { cg := none, op := none, tasksBound := false }
    { aoChans := [0], aiChans := [1], recFile := 2 } []
